import Mathlib

/-!
CHIP-8 emulator core (`internal/emulator/chip8.go`)

A shallow embedding of the `Chip8` machine state and of its opcode handlers.

Conventions of the embedding:

* Go fixed-size arrays are total functions from `Nat`; every array access of the
  source is guarded by the bound the Go runtime checks, and an access outside the
  bound (a run-time panic) makes the operation return `none`.
* `byte` and `uint16` values are natural numbers; wrap-around of machine arithmetic
  is written out with `% 256` and `% 65536` where the source can overflow.
* Output written with `fmt.Printf` / `utils.PrintOpcodeNeedsImplementation` is not
  part of the machine state and is not modelled.
-/

namespace Chip8Emu

/-- Screen width, `col_size` of the source. -/
def col_size : Nat := 64

/-- Screen height, `row_size` of the source. -/
def row_size : Nat := 32

/-- Machine state, the `Chip8` struct of the source. -/
structure Chip8 where
  /-- `memory [4096]byte` -/
  memory : Nat → Nat
  /-- `v [16]byte` -/
  v : Nat → Nat
  /-- `i uint16` -/
  i : Nat
  /-- `pc uint16` -/
  pc : Nat
  /-- `sp uint16` -/
  sp : Nat
  /-- `stack [16]uint16` -/
  stack : Nat → Nat
  /-- `delay_timer byte` -/
  delay_timer : Nat
  /-- `sound_timer byte` -/
  sound_timer : Nat
  /-- `keys [16]byte` -/
  keys : Nat → Nat
  /-- `screen [row_size][col_size]byte` -/
  screen : Nat → Nat → Nat

/-- Array store `a[k] = x`. -/
def setAt (a : Nat → Nat) (k x : Nat) : Nat → Nat :=
  fun j => if j = k then x else a j

/-- Two-dimensional array store `a[r][k] = x`. -/
def setAt2 (a : Nat → Nat → Nat) (r k x : Nat) : Nat → Nat → Nat :=
  fun j => if j = r then setAt (a j) k x else a j

/-- The zero value `Chip8{}` of the struct. -/
def Chip8.zero : Chip8 where
  memory := fun _ => 0
  v := fun _ => 0
  i := 0
  pc := 0
  sp := 0
  stack := fun _ => 0
  delay_timer := 0
  sound_timer := 0
  keys := fun _ => 0
  screen := fun _ _ => 0

/-- Every field holds a value of its Go type. -/
def Chip8.WF (c : Chip8) : Prop :=
  (∀ a, c.memory a < 256) ∧ (∀ k, c.v k < 256) ∧ c.i < 65536 ∧ c.pc < 65536 ∧
  c.sp < 65536 ∧ (∀ k, c.stack k < 65536) ∧ c.delay_timer < 256 ∧
  c.sound_timer < 256 ∧ (∀ k, c.keys k < 256) ∧ (∀ r k, c.screen r k < 256)

/-- `Fetch`: `uint16(c.memory[c.pc]<<8 | c.memory[c.pc+1])`.  Both operands of `|`
are of type `byte`, so the shift is a `byte` shift (reduced modulo 256) and the
conversion to `uint16` is applied to the `byte` result. -/
def Fetch (c : Chip8) : Option Nat :=
  if c.pc < 4096 then
    if (c.pc + 1) % 65536 < 4096 then
      some ((((c.memory c.pc <<< 8) % 256) ||| c.memory ((c.pc + 1) % 65536)) % 65536)
    else none
  else none

/-- `ClearScreen`: every cell of the `row_size × col_size` array is set to 0. -/
def ClearScreen (c : Chip8) : Chip8 :=
  { c with screen := fun r k => if r < row_size ∧ k < col_size then 0 else c.screen r k }

/-- `ReturnFromSubroutine`: `c.sp--` then `c.pc = c.stack[c.sp]`. -/
def ReturnFromSubroutine (c : Chip8) : Option Chip8 :=
  let sp := (c.sp + 65535) % 65536
  if sp < 16 then some { c with sp := sp, pc := c.stack sp } else none

/-- `JumpToAddr`: `c.pc = opcode & 0x0FFF`. -/
def JumpToAddr (c : Chip8) (opcode : Nat) : Chip8 :=
  { c with pc := opcode &&& 0x0FFF }

/-- `CallSubroutine`: `c.sp++` then `c.pc = c.stack[c.sp]`. -/
def CallSubroutine (c : Chip8) : Option Chip8 :=
  let sp := (c.sp + 1) % 65536
  if sp < 16 then some { c with sp := sp, pc := c.stack sp } else none

/-- `LoadValueIntoRegister`: `c.v[x] = nn`. -/
def LoadValueIntoRegister (c : Chip8) (opcode : Nat) : Chip8 :=
  let x := (opcode &&& 0x0F00) >>> 8
  let nn := (opcode &&& 0x00FF) % 256
  { c with v := setAt c.v x nn }

/-- `AddtoRegister`: `c.v[x] += nn` on `byte`. -/
def AddtoRegister (c : Chip8) (opcode : Nat) : Chip8 :=
  let x := (opcode &&& 0x0F00) >>> 8
  let nn := (opcode &&& 0x00FF) % 256
  { c with v := setAt c.v x ((c.v x + nn) % 256) }

/-- `SetIndexToAddr`: `c.i = opcode & 0x0FFF`. -/
def SetIndexToAddr (c : Chip8) (opcode : Nat) : Chip8 :=
  { c with i := opcode &&& 0x0FFF }

/-- Body of the inner `for col` loop of `DrawSprite`; `ry` is the row index
`row+uint16(y_pos)` of the current sprite row. -/
def drawCol (sprite_byte ry x_pos col : Nat) (c : Chip8) : Option Chip8 :=
  if sprite_byte &&& (0x80 >>> col) ≠ 0 then
    if ry < row_size ∧ col + x_pos < col_size then
      let c1 := if c.screen ry (col + x_pos) = 1 then { c with v := setAt c.v 0xF 1 } else c
      some { c1 with
        screen := setAt2 c1.screen ry (col + x_pos) (c1.screen ry (col + x_pos) ^^^ 1) }
    else none
  else some c

/-- The inner loop `for col := 0; col < 8; col++`, as `n` iterations from `col`. -/
def drawCols (sprite_byte ry x_pos : Nat) : Nat → Nat → Chip8 → Option Chip8
  | 0, _, c => some c
  | n + 1, col, c =>
    (drawCol sprite_byte ry x_pos col c).bind (drawCols sprite_byte ry x_pos n (col + 1))

/-- Body of the outer `for row` loop of `DrawSprite`: read `c.memory[c.i+row]`
(a `uint16` sum), then run the eight columns. -/
def drawRow (y_pos x_pos row : Nat) (c : Chip8) : Option Chip8 :=
  if (c.i + row) % 65536 < 4096 then
    drawCols (c.memory ((c.i + row) % 65536)) (row + y_pos) x_pos 8 0 c
  else none

/-- The outer loop `for row := uint16(0); row < height_n; row++`, as `n`
iterations from `row`. -/
def drawRows (y_pos x_pos : Nat) : Nat → Nat → Chip8 → Option Chip8
  | 0, _, c => some c
  | n + 1, row, c => (drawRow y_pos x_pos row c).bind (drawRows y_pos x_pos n (row + 1))

/-- `DrawSprite`: the coordinates are read from `VX`, `VY` before `VF` is cleared. -/
def DrawSprite (c : Chip8) (opcode : Nat) : Option Chip8 :=
  let x_pos := c.v ((opcode &&& 0x0F00) >>> 8) % col_size
  let y_pos := c.v ((opcode &&& 0x00F0) >>> 4) % row_size
  let height_n := opcode &&& 0x000F
  drawRows y_pos x_pos height_n 0 { c with v := setAt c.v 0xF 0 }

/-- `ExecuteOpcode`: fetch, advance `pc` by 2 (on `uint16`), dispatch on
`opcode & 0xF000`.  The `case` constants are those of the source. -/
def ExecuteOpcode (c : Chip8) : Option Chip8 :=
  (Fetch c).bind fun opcode =>
    let c1 := { c with pc := (c.pc + 2) % 65536 }
    if opcode &&& 0xF000 = 0x0000 then
      if opcode = 0x00E0 then some (ClearScreen c1)
      else if opcode = 0x00EE then ReturnFromSubroutine c1
      else some c1
    else if opcode &&& 0xF000 = 0x1000 then some (JumpToAddr c1 opcode)
    else if opcode &&& 0xF000 = 0x2000 then CallSubroutine c1
    else if opcode &&& 0xF000 = 0x6000 then some (LoadValueIntoRegister c1 opcode)
    else if opcode &&& 0xF000 = 0x7000 then some (AddtoRegister c1 opcode)
    else if opcode &&& 0xF000 = 0xA000 then some (SetIndexToAddr c1 opcode)
    else if opcode &&& 0xF000 = 0xD000 then DrawSprite c1 opcode
    else if opcode &&& 0xF000 = 0xE00 then some c1
    else if opcode &&& 0xF000 = 0x300 then some c1
    else if opcode &&& 0xF000 = 0x400 then some c1
    else if opcode &&& 0xF000 = 0xF00 then some c1
    else some c1

/-- Bit `7 - col` of a sprite byte: the bit drawn in column `col` of the row. -/
def spriteBit (b col : Nat) : Nat := b / 2 ^ (7 - col) % 2

/-- `n` consecutive `CallSubroutine` invocations. -/
def callN : Nat → Chip8 → Option Chip8
  | 0, c => some c
  | n + 1, c => (CallSubroutine c).bind (callN n)

/-- The X field of an opcode, `(opcode & 0x0F00) >> 8`. -/
abbrev opX (opcode : Nat) : Nat := (opcode &&& 0x0F00) >>> 8

/-- The Y field of an opcode, `(opcode & 0x00F0) >> 4`. -/
abbrev opY (opcode : Nat) : Nat := (opcode &&& 0x00F0) >>> 4

/-- The N field of an opcode, `opcode & 0x000F`. -/
abbrev opN (opcode : Nat) : Nat := opcode &&& 0x000F

/-- Everything but the screen and `VF` is the same in `c` and `c'`. -/
def DrawFrame (c c' : Chip8) : Prop :=
  c'.memory = c.memory ∧ c'.i = c.i ∧ c'.pc = c.pc ∧ c'.sp = c.sp ∧ c'.stack = c.stack ∧
  c'.delay_timer = c.delay_timer ∧ c'.sound_timer = c.sound_timer ∧ c'.keys = c.keys ∧
  ∀ k, k ≠ 15 → c'.v k = c.v k

/-! ## Concrete machines -/

/-- A machine at `pc = 0x200` whose next instruction word is `0x12 0x34`. -/
def fetchEx : Chip8 :=
  { Chip8.zero with pc := 0x200, memory := setAt (setAt Chip8.zero.memory 0x200 0x12) 0x201 0x34 }

/-- The machine of `TestDrawSprite`: a 3-row sprite `F0 90 F0` at `0x300`, `I = 0x300`,
`V0 = 5`, `V1 = 3`. -/
def spriteEx : Chip8 :=
  { Chip8.zero with
    i := 0x300
    v := setAt (setAt Chip8.zero.v 0 5) 1 3
    memory := setAt (setAt (setAt Chip8.zero.memory 0x300 0xF0) 0x301 0x90) 0x302 0xF0 }

/-- A one-row sprite `FF` at `0x300`, `I = 0x300`, `V0 = 60`, `V1 = 0`. -/
def wrapEx : Chip8 :=
  { Chip8.zero with
    i := 0x300
    v := setAt Chip8.zero.v 0 60
    memory := setAt Chip8.zero.memory 0x300 0xFF }

/-- An empty stack (`sp = 0`), `pc = 0x202` (just past a fetched `2NNN`), and the
unused slot `stack[1]` holding `0xABC`. -/
def callEx : Chip8 :=
  { Chip8.zero with pc := 0x202, stack := setAt Chip8.zero.stack 1 0xABC }

/-- The program `60 05 70 03` (`V0 := 5; V0 += 3`) at `pc = 0x200`. -/
def addEx : Chip8 :=
  { Chip8.zero with
    pc := 0x200
    memory := setAt (setAt (setAt (setAt Chip8.zero.memory 0x200 0x60) 0x201 0x05) 0x202 0x70)
      0x203 0x03 }

/-- The undefined word `F0 E0` at `pc = 0x200`, with the pixel at row 0, column 0 lit. -/
def undefEx : Chip8 :=
  { Chip8.zero with
    pc := 0x200
    memory := setAt (setAt Chip8.zero.memory 0x200 0xF0) 0x201 0xE0
    screen := setAt2 Chip8.zero.screen 0 0 1 }

/-! ## Further definitions -/

/-- The loop of `LoadRom`, `for i := 0; i < len(data); i++ { c.memory[0x200+i] = data[i] }`,
as `n` iterations from `i`. -/
def loadLoop (data : List Nat) : Nat → Nat → Chip8 → Option Chip8
  | 0, _, c => some c
  | n + 1, i, c =>
    if 0x200 + i < 4096 then
      loadLoop data n (i + 1) { c with memory := setAt c.memory (0x200 + i) (data.getD i 0) }
    else none

/-- `LoadRom`.  The argument `read` stands for the result of `os.ReadFile(filename)`:
`none` for an error, `some data` for the bytes read.  The Boolean of the result tells
whether the returned `error` is `nil`. -/
def LoadRom (c : Chip8) (read : Option (List Nat)) : Option (Chip8 × Bool) :=
  match read with
  | none => some (c, false)
  | some data => (loadLoop data data.length 0 c).map fun c' => (c', true)

/-- Every cell of the `row_size × col_size` screen array is 0 or 1. -/
def BinaryScreen (c : Chip8) : Prop :=
  ∀ r k, r < row_size → k < col_size → c.screen r k = 0 ∨ c.screen r k = 1

/-- What any completed part of a draw keeps: the frame, the binary-pixel property, and
`VF` either as it was or set to 1. -/
def DrawStep (c c' : Chip8) : Prop :=
  DrawFrame c c' ∧ (BinaryScreen c → BinaryScreen c') ∧ (c'.v 15 = c.v 15 ∨ c'.v 15 = 1)

/-- A machine with `VF = 10`, `I = 0x300` and the one-row sprite `F0` at `0x300`. -/
def vfEx : Chip8 :=
  { Chip8.zero with
    i := 0x300
    v := setAt Chip8.zero.v 0xF 10
    memory := setAt Chip8.zero.memory 0x300 0xF0 }

/-- The zero machine with `pc = 4094`, the last even address of memory. -/
def pcEndEx : Chip8 :=
  { Chip8.zero with pc := 4094 }

/-- The word `00 EE` (return) at `pc = 0x200`, with `sp = 1` and the odd value `0x203`
in `stack[0]`. -/
def retEx : Chip8 :=
  { Chip8.zero with
    pc := 0x200
    sp := 1
    stack := setAt Chip8.zero.stack 0 0x203
    memory := setAt Chip8.zero.memory 0x201 0xEE }

/-- The zero machine with `I = 0x1000`, one past the last memory address. -/
def farEx : Chip8 :=
  { Chip8.zero with i := 0x1000 }

/-- The word `00 EE` (return) at `pc = 0x200` on an empty stack (`sp = 0`). -/
def retEmptyEx : Chip8 :=
  { Chip8.zero with
    pc := 0x200
    memory := setAt Chip8.zero.memory 0x201 0xEE }


/-! ## The concrete machines hold values of their Go types -/

theorem setAt_lt (a : Nat → Nat) (k x b : Nat) (ha : ∀ j, a j < b) (hx : x < b) :
    ∀ j, setAt a k x j < b := by
  intro j
  unfold setAt
  split
  · exact hx
  · exact ha j

theorem setAt2_lt (a : Nat → Nat → Nat) (r k x b : Nat) (ha : ∀ i j, a i j < b) (hx : x < b) :
    ∀ i j, setAt2 a r k x i j < b := by
  intro i j
  unfold setAt2
  split
  · exact setAt_lt (a i) k x b (ha i) hx j
  · exact ha i j

theorem zero_WF : Chip8.zero.WF := by
  refine ⟨?_, ?_, ?_, ?_, ?_, ?_, ?_, ?_, ?_, ?_⟩ <;> intros <;> simp [Chip8.zero]

theorem fetchEx_WF : fetchEx.WF :=
  ⟨setAt_lt _ _ _ _ (setAt_lt _ _ _ _ zero_WF.1 (by decide)) (by decide),
    zero_WF.2.1, by decide, by decide, by decide, zero_WF.2.2.2.2.2.1, by decide, by decide,
    zero_WF.2.2.2.2.2.2.2.2.1, zero_WF.2.2.2.2.2.2.2.2.2⟩

theorem spriteEx_WF : spriteEx.WF :=
  ⟨setAt_lt _ _ _ _ (setAt_lt _ _ _ _ (setAt_lt _ _ _ _ zero_WF.1 (by decide)) (by decide))
      (by decide),
    setAt_lt _ _ _ _ (setAt_lt _ _ _ _ zero_WF.2.1 (by decide)) (by decide),
    by decide, by decide, by decide, zero_WF.2.2.2.2.2.1, by decide, by decide,
    zero_WF.2.2.2.2.2.2.2.2.1, zero_WF.2.2.2.2.2.2.2.2.2⟩

theorem wrapEx_WF : wrapEx.WF :=
  ⟨setAt_lt _ _ _ _ zero_WF.1 (by decide), setAt_lt _ _ _ _ zero_WF.2.1 (by decide),
    by decide, by decide, by decide, zero_WF.2.2.2.2.2.1, by decide, by decide,
    zero_WF.2.2.2.2.2.2.2.2.1, zero_WF.2.2.2.2.2.2.2.2.2⟩

theorem callEx_WF : callEx.WF :=
  ⟨zero_WF.1, zero_WF.2.1, by decide, by decide, by decide,
    setAt_lt _ _ _ _ zero_WF.2.2.2.2.2.1 (by decide), by decide, by decide,
    zero_WF.2.2.2.2.2.2.2.2.1, zero_WF.2.2.2.2.2.2.2.2.2⟩

theorem addEx_WF : addEx.WF :=
  ⟨setAt_lt _ _ _ _ (setAt_lt _ _ _ _ (setAt_lt _ _ _ _ (setAt_lt _ _ _ _ zero_WF.1
      (by decide)) (by decide)) (by decide)) (by decide),
    zero_WF.2.1, by decide, by decide, by decide, zero_WF.2.2.2.2.2.1, by decide, by decide,
    zero_WF.2.2.2.2.2.2.2.2.1, zero_WF.2.2.2.2.2.2.2.2.2⟩

theorem undefEx_WF : undefEx.WF :=
  ⟨setAt_lt _ _ _ _ (setAt_lt _ _ _ _ zero_WF.1 (by decide)) (by decide),
    zero_WF.2.1, by decide, by decide, by decide, zero_WF.2.2.2.2.2.1, by decide, by decide,
    zero_WF.2.2.2.2.2.2.2.2.1, setAt2_lt _ _ _ _ _ zero_WF.2.2.2.2.2.2.2.2.2 (by decide)⟩

/-! ## Bit extraction -/

theorem and_two_pow_ne_zero_iff (b k : Nat) : b &&& 2 ^ k ≠ 0 ↔ b / 2 ^ k % 2 = 1 := by
  have hdm : b.testBit k = decide (b / 2 ^ k % 2 = 1) := Nat.testBit_to_div_mod
  constructor
  · intro h
    by_contra hne
    apply h
    apply Nat.eq_of_testBit_eq
    intro j
    rw [Nat.testBit_and, Nat.testBit_two_pow, Nat.zero_testBit]
    by_cases hj : k = j
    · subst hj
      simp [hdm, hne]
    · simp [hj]
  · intro h hz
    have h1 : (b &&& 2 ^ k).testBit k = true := by
      rw [Nat.testBit_and, Nat.testBit_two_pow, hdm]
      simp [h]
    rw [hz, Nat.zero_testBit] at h1
    exact Bool.noConfusion h1

theorem mask_ne_zero_iff (b col : Nat) (h : col < 8) :
    b &&& (0x80 >>> col) ≠ 0 ↔ spriteBit b col = 1 := by
  have hm : 0x80 >>> col = 2 ^ (7 - col) := by
    interval_cases col <;> rfl
  rw [hm]
  exact and_two_pow_ne_zero_iff b (7 - col)

theorem spriteBit_le_one (b col : Nat) : spriteBit b col = 0 ∨ spriteBit b col = 1 := by
  unfold spriteBit
  omega

/-! ## Frame of the drawing loops -/

theorem DrawFrame.same (c : Chip8) : DrawFrame c c :=
  ⟨rfl, rfl, rfl, rfl, rfl, rfl, rfl, rfl, fun _ _ => rfl⟩

theorem DrawFrame.comp {a b c : Chip8} (h1 : DrawFrame a b) (h2 : DrawFrame b c) :
    DrawFrame a c := by
  obtain ⟨m1, i1, p1, s1, t1, d1, o1, k1, v1⟩ := h1
  obtain ⟨m2, i2, p2, s2, t2, d2, o2, k2, v2⟩ := h2
  exact ⟨m2.trans m1, i2.trans i1, p2.trans p1, s2.trans s1, t2.trans t1, d2.trans d1,
    o2.trans o1, k2.trans k1, fun k hk => (v2 k hk).trans (v1 k hk)⟩

theorem drawCol_spec (sb ry x col : Nat) (c : Chip8) (hry : ry < 32) (hcol : col < 8)
    (hx : col + x < 64) :
    ∃ c', drawCol sb ry x col c = some c' ∧ DrawFrame c c' ∧
      (∀ r k, c'.screen r k =
        if r = ry ∧ k = col + x then c.screen r k ^^^ spriteBit sb col else c.screen r k) ∧
      (c'.v 15 = 1 ↔ c.v 15 = 1 ∨ (spriteBit sb col = 1 ∧ c.screen ry (col + x) = 1)) ∧
      (c'.v 15 = c.v 15 ∨ c'.v 15 = 1) := by
  have hb := mask_ne_zero_iff sb col hcol
  have hin : ry < row_size ∧ col + x < col_size := ⟨hry, hx⟩
  unfold drawCol
  by_cases hbit : sb &&& (0x80 >>> col) ≠ 0
  · have hs1 : spriteBit sb col = 1 := hb.mp hbit
    rw [if_pos hbit, if_pos hin]
    by_cases hon : c.screen ry (col + x) = 1
    · simp only [if_pos hon]
      refine ⟨_, rfl, ⟨rfl, rfl, rfl, rfl, rfl, rfl, rfl, rfl, ?_⟩, ?_, ?_, ?_⟩
      · intro k hk
        simp [hon, setAt, hk]
      · intro r k
        by_cases hr : r = ry
        · by_cases hk : k = col + x
          · simp [hon, setAt2, setAt, hr, hk, hs1]
          · simp [hon, setAt2, setAt, hr, hk]
        · simp [hon, setAt2, hr]
      · simp [hon, setAt, hs1]
      · right
        simp [hon, setAt]
    · simp only [if_neg hon]
      refine ⟨_, rfl, ⟨rfl, rfl, rfl, rfl, rfl, rfl, rfl, rfl, ?_⟩, ?_, ?_, ?_⟩
      · intro k _
        simp [hon]
      · intro r k
        by_cases hr : r = ry
        · by_cases hk : k = col + x
          · simp [hon, setAt2, setAt, hr, hk, hs1]
          · simp [hon, setAt2, setAt, hr, hk]
        · simp [hon, setAt2, hr]
      · simp [hon]
      · left
        simp [hon]
  · have hs0 : spriteBit sb col = 0 := by
      rcases spriteBit_le_one sb col with h0 | h1
      · exact h0
      · exact absurd (hb.mpr h1) hbit
    rw [if_neg hbit]
    refine ⟨c, rfl, DrawFrame.same c, ?_, ?_, Or.inl rfl⟩
    · intro r k
      simp [hs0]
    · simp [hs0]

theorem drawCols_spec (sb ry x : Nat) (hry : ry < 32) :
    ∀ (n col : Nat) (c : Chip8), col + n ≤ 8 → col + n + x ≤ 64 →
    ∃ c', drawCols sb ry x n col c = some c' ∧ DrawFrame c c' ∧
      (∀ r k, c'.screen r k =
        if r = ry ∧ col + x ≤ k ∧ k < col + n + x then c.screen r k ^^^ spriteBit sb (k - x)
        else c.screen r k) ∧
      (c'.v 15 = 1 ↔ c.v 15 = 1 ∨
        ∃ j, col ≤ j ∧ j < col + n ∧ spriteBit sb j = 1 ∧ c.screen ry (j + x) = 1) ∧
      (c'.v 15 = c.v 15 ∨ c'.v 15 = 1) := by
  intro n
  induction n with
  | zero =>
    intro col c _ _
    refine ⟨c, rfl, DrawFrame.same c, ?_, ?_, Or.inl rfl⟩
    · intro r k
      rw [if_neg]
      omega
    · constructor
      · exact Or.inl
      · rintro (h | ⟨j, h1, h2, _⟩)
        · exact h
        · omega
  | succ n ih =>
    intro col c h8 h64
    obtain ⟨c1, e1, f1, s1, v1, w1⟩ := drawCol_spec sb ry x col c hry (by omega) (by omega)
    obtain ⟨c2, e2, f2, s2, v2, w2⟩ := ih (col + 1) c1 (by omega) (by omega)
    refine ⟨c2, ?_, f1.comp f2, ?_, ?_, ?_⟩
    · simp [drawCols, e1, e2]
    · intro r k
      rw [s2 r k, s1 r k]
      by_cases hr : r = ry
      · by_cases hk : k = col + x
        · have hkx : k - x = col := by omega
          rw [if_neg (by omega), if_pos ⟨hr, hk⟩, if_pos ⟨hr, by omega, by omega⟩, hkx]
        · by_cases hk2 : col + 1 + x ≤ k ∧ k < col + 1 + n + x
          · rw [if_pos ⟨hr, hk2⟩, if_neg (by tauto), if_pos ⟨hr, by omega, by omega⟩]
          · rw [if_neg (by tauto), if_neg (by tauto), if_neg]
            omega
      · rw [if_neg (by tauto), if_neg (by tauto), if_neg (by tauto)]
    · have hscr : ∀ j, col + 1 ≤ j → c1.screen ry (j + x) = c.screen ry (j + x) := by
        intro j hj
        rw [s1, if_neg]
        omega
      rw [v2, v1]
      constructor
      · rintro ((h | ⟨hb, hp⟩) | ⟨j, h1, h2, hb, hp⟩)
        · exact Or.inl h
        · exact Or.inr ⟨col, le_refl _, by omega, hb, hp⟩
        · exact Or.inr ⟨j, by omega, by omega, hb, (hscr j h1) ▸ hp⟩
      · rintro (h | ⟨j, h1, h2, hb, hp⟩)
        · exact Or.inl (Or.inl h)
        · by_cases hj : j = col
          · subst hj
            exact Or.inl (Or.inr ⟨hb, hp⟩)
          · have hj1 : col + 1 ≤ j := by omega
            exact Or.inr ⟨j, hj1, by omega, hb, (hscr j hj1).symm ▸ hp⟩
    · omega

theorem drawRow_spec (y x row : Nat) (c : Chip8) (hI : c.i + row < 4096)
    (hy : row + y < 32) (hx : x ≤ 56) :
    ∃ c', drawRow y x row c = some c' ∧ DrawFrame c c' ∧
      (∀ r k, c'.screen r k =
        if r = row + y ∧ x ≤ k ∧ k < x + 8 then
          c.screen r k ^^^ spriteBit (c.memory (c.i + row)) (k - x)
        else c.screen r k) ∧
      (c'.v 15 = 1 ↔ c.v 15 = 1 ∨
        ∃ j, j < 8 ∧ spriteBit (c.memory (c.i + row)) j = 1 ∧ c.screen (row + y) (j + x) = 1) ∧
      (c'.v 15 = c.v 15 ∨ c'.v 15 = 1) := by
  have hmod : (c.i + row) % 65536 = c.i + row := Nat.mod_eq_of_lt (by omega)
  obtain ⟨c', e, f, s, v, w⟩ :=
    drawCols_spec (c.memory (c.i + row)) (row + y) x hy 8 0 c (by omega) (by omega)
  refine ⟨c', ?_, f, ?_, ?_, w⟩
  · unfold drawRow
    rw [hmod, if_pos hI]
    exact e
  · intro r k
    rw [s r k]
    by_cases h : r = row + y ∧ x ≤ k ∧ k < x + 8
    · rw [if_pos h, if_pos ⟨h.1, by omega, by omega⟩]
    · rw [if_neg h, if_neg]
      omega
  · rw [v]
    constructor
    · rintro (h | ⟨j, _, h2, hb, hp⟩)
      · exact Or.inl h
      · exact Or.inr ⟨j, by omega, hb, hp⟩
    · rintro (h | ⟨j, h2, hb, hp⟩)
      · exact Or.inl h
      · exact Or.inr ⟨j, Nat.zero_le _, by omega, hb, hp⟩

theorem drawRows_spec (y x : Nat) (hx : x ≤ 56) :
    ∀ (n row : Nat) (c : Chip8), c.i + row + n ≤ 4096 → row + n + y ≤ 32 →
    ∃ c', drawRows y x n row c = some c' ∧ DrawFrame c c' ∧
      (∀ r k, c'.screen r k =
        if row + y ≤ r ∧ r < row + n + y ∧ x ≤ k ∧ k < x + 8 then
          c.screen r k ^^^ spriteBit (c.memory (c.i + (r - y))) (k - x)
        else c.screen r k) ∧
      (c'.v 15 = 1 ↔ c.v 15 = 1 ∨
        ∃ i j, row ≤ i ∧ i < row + n ∧ j < 8 ∧
          spriteBit (c.memory (c.i + i)) j = 1 ∧ c.screen (i + y) (j + x) = 1) ∧
      (c'.v 15 = c.v 15 ∨ c'.v 15 = 1) := by
  intro n
  induction n with
  | zero =>
    intro row c _ _
    refine ⟨c, rfl, DrawFrame.same c, ?_, ?_, Or.inl rfl⟩
    · intro r k
      rw [if_neg]
      omega
    · constructor
      · exact Or.inl
      · rintro (h | ⟨i, j, h1, h2, _⟩)
        · exact h
        · omega
  | succ n ih =>
    intro row c hI hy
    obtain ⟨c1, e1, f1, s1, v1, w1⟩ := drawRow_spec y x row c (by omega) (by omega) hx
    have hi1 : c1.i = c.i := f1.2.1
    have hm1 : c1.memory = c.memory := f1.1
    obtain ⟨c2, e2, f2, s2, v2, w2⟩ := ih (row + 1) c1 (by omega) (by omega)
    refine ⟨c2, ?_, f1.comp f2, ?_, ?_, ?_⟩
    · simp [drawRows, e1, e2]
    · intro r k
      rw [s2 r k, s1 r k, hi1, hm1]
      by_cases hk : x ≤ k ∧ k < x + 8
      · by_cases hr : r = row + y
        · have hry : r - y = row := by omega
          rw [if_neg (by omega), if_pos ⟨hr, hk⟩, if_pos ⟨by omega, by omega, hk⟩, hry]
        · by_cases hr2 : row + 1 + y ≤ r ∧ r < row + 1 + n + y
          · rw [if_pos ⟨hr2.1, hr2.2, hk⟩, if_neg (fun h => hr h.1),
              if_pos ⟨by omega, by omega, hk⟩]
          · rw [if_neg (fun h => hr2 ⟨h.1, h.2.1⟩), if_neg (fun h => hr h.1), if_neg]
            omega
      · rw [if_neg (fun h => hk h.2.2), if_neg (fun h => hk h.2), if_neg (fun h => hk h.2.2)]
    · have hscr : ∀ i k, row + 1 ≤ i → c1.screen (i + y) k = c.screen (i + y) k := by
        intro i k hi
        rw [s1, if_neg]
        omega
      rw [v2, v1, hi1, hm1]
      constructor
      · rintro ((h | ⟨j, hj, hb, hp⟩) | ⟨i, j, h1, h2, hj, hb, hp⟩)
        · exact Or.inl h
        · exact Or.inr ⟨row, j, le_refl _, by omega, hj, hb, hp⟩
        · exact Or.inr ⟨i, j, by omega, by omega, hj, hb, (hscr i _ h1) ▸ hp⟩
      · rintro (h | ⟨i, j, h1, h2, hj, hb, hp⟩)
        · exact Or.inl (Or.inl h)
        · by_cases hi : i = row
          · subst hi
            exact Or.inl (Or.inr ⟨j, hj, hb, hp⟩)
          · have hi2 : row + 1 ≤ i := by omega
            exact Or.inr ⟨i, j, hi2, by omega, hj, hb, (hscr i _ hi2).symm ▸ hp⟩
    · rcases w2 with b | b
      · rcases w1 with a | a
        · exact Or.inl (b.trans a)
        · exact Or.inr (b.trans a)
      · exact Or.inr b

/-- What an in-bounds `DrawSprite` does: it completes; the pixels of the `8 × N`
rectangle are XOR-ed with the sprite bits; `VF` is the collision flag; the other
registers and the rest of the state are kept. -/
theorem DrawSprite_spec (c : Chip8) (opcode : Nat)
    (hx : c.v (opX opcode) % 64 ≤ 56)
    (hy : c.v (opY opcode) % 32 + opN opcode ≤ 32)
    (hI : c.i + opN opcode ≤ 4096) :
    ∃ c', DrawSprite c opcode = some c' ∧ DrawFrame c c' ∧
      (∀ r k, c'.screen r k =
        if c.v (opY opcode) % 32 ≤ r ∧
            r < c.v (opY opcode) % 32 + opN opcode ∧
            c.v (opX opcode) % 64 ≤ k ∧
            k < c.v (opX opcode) % 64 + 8 then
          c.screen r k ^^^
            spriteBit (c.memory (c.i + (r - c.v (opY opcode) % 32)))
              (k - c.v (opX opcode) % 64)
        else c.screen r k) ∧
      (c'.v 15 = 1 ↔
        ∃ i j, i < opN opcode ∧ j < 8 ∧
          spriteBit (c.memory (c.i + i)) j = 1 ∧
          c.screen (i + c.v (opY opcode) % 32)
            (j + c.v (opX opcode) % 64) = 1) ∧
      (c'.v 15 = 0 ∨ c'.v 15 = 1) := by
  simp only [opX, opY, opN] at hx hy hI ⊢
  obtain ⟨c', e, f, s, v, w⟩ :=
    drawRows_spec (c.v ((opcode &&& 0x00F0) >>> 4) % 32) (c.v ((opcode &&& 0x0F00) >>> 8) % 64)
      hx (opcode &&& 0x000F) 0 { c with v := setAt c.v 0xF 0 }
      (by simpa using hI) (by omega)
  have hv0 : ({ c with v := setAt c.v 0xF 0 } : Chip8).v 15 = 0 := by simp [setAt]
  rw [hv0] at v w
  refine ⟨c', e, ?_, ?_, ?_, ?_⟩
  · have f0 : DrawFrame c { c with v := setAt c.v 0xF 0 } := by
      refine ⟨rfl, rfl, rfl, rfl, rfl, rfl, rfl, rfl, ?_⟩
      intro k hk
      simp [setAt, hk]
    exact f0.comp f
  · intro r k
    have s' := s r k
    simp only [Nat.zero_add] at s'
    rw [Nat.add_comm (opcode &&& 0x000F)] at s'
    exact s'
  · rw [v]
    constructor
    · rintro (h | ⟨i, j, _, h2, hj, hb, hp⟩)
      · exact absurd h (by decide)
      · exact ⟨i, j, by omega, hj, hb, hp⟩
    · rintro ⟨i, j, h2, hj, hb, hp⟩
      exact Or.inr ⟨i, j, Nat.zero_le _, by omega, hj, hb, hp⟩
  · omega

/-! ## Fetch -/

/-- C1 (defect in `Fetch`): on the machine with `pc = 0x200`, `memory[0x200] = 0x12`
and `memory[0x201] = 0x34`, where `pc ≤ 4094`, `Fetch` returns `0x34`, the low byte
alone, while `memory[pc] * 256 + memory[pc+1]` is `0x1234`. -/
theorem C1_fetch_drops_high_byte :
    fetchEx.pc ≤ 4094 ∧ Fetch fetchEx = some 0x34 ∧
      fetchEx.memory fetchEx.pc * 256 + fetchEx.memory (fetchEx.pc + 1) = 0x1234 := by
  decide

/-! ## DrawSprite -/

/-- C2: an in-bounds `DrawSprite` (`VX % 64 ≤ 56`, `VY % 32 + N ≤ 32`, `I + N ≤ 4096`)
completes; every pixel of the `8 × N` rectangle at `(VX % 64, VY % 32)` is its previous
value XOR bit `7 - k` of `memory[I + r]`, and every pixel outside it is unchanged. -/
theorem C2_draw_in_bounds_pixels (c : Chip8) (opcode : Nat)
    (hx : c.v (opX opcode) % 64 ≤ 56)
    (hy : c.v (opY opcode) % 32 + opN opcode ≤ 32)
    (hI : c.i + opN opcode ≤ 4096) :
    ∃ c', DrawSprite c opcode = some c' ∧
      (∀ r k, r < opN opcode → k < 8 →
        c'.screen (c.v (opY opcode) % 32 + r) (c.v (opX opcode) % 64 + k) =
          c.screen (c.v (opY opcode) % 32 + r) (c.v (opX opcode) % 64 + k) ^^^
            spriteBit (c.memory (c.i + r)) k) ∧
      (∀ r k, ¬ (c.v (opY opcode) % 32 ≤ r ∧ r < c.v (opY opcode) % 32 + opN opcode ∧
          c.v (opX opcode) % 64 ≤ k ∧ k < c.v (opX opcode) % 64 + 8) →
        c'.screen r k = c.screen r k) := by
  obtain ⟨c', e, _, s, _, _⟩ := DrawSprite_spec c opcode hx hy hI
  refine ⟨c', e, ?_, ?_⟩
  · intro r k hr hk
    rw [s, if_pos ⟨by omega, by omega, by omega, by omega⟩]
    congr 3 <;> omega
  · intro r k h
    rw [s, if_neg h]

/-- C2 at the machine of `TestDrawSprite` and opcode `0xD013`. -/
theorem C2_draw_in_bounds_pixels_witness :
    spriteEx.v (opX 0xD013) % 64 ≤ 56 ∧
    spriteEx.v (opY 0xD013) % 32 + opN 0xD013 ≤ 32 ∧
    spriteEx.i + opN 0xD013 ≤ 4096 ∧
    ∃ c', DrawSprite spriteEx 0xD013 = some c' ∧
      (∀ r k, r < opN 0xD013 → k < 8 →
        c'.screen (spriteEx.v (opY 0xD013) % 32 + r) (spriteEx.v (opX 0xD013) % 64 + k) =
          spriteEx.screen (spriteEx.v (opY 0xD013) % 32 + r)
              (spriteEx.v (opX 0xD013) % 64 + k) ^^^
            spriteBit (spriteEx.memory (spriteEx.i + r)) k) ∧
      (∀ r k, ¬ (spriteEx.v (opY 0xD013) % 32 ≤ r ∧
          r < spriteEx.v (opY 0xD013) % 32 + opN 0xD013 ∧
          spriteEx.v (opX 0xD013) % 64 ≤ k ∧ k < spriteEx.v (opX 0xD013) % 64 + 8) →
        c'.screen r k = spriteEx.screen r k) :=
  ⟨by decide, by decide, by decide,
    C2_draw_in_bounds_pixels spriteEx 0xD013 (by decide) (by decide) (by decide)⟩

/-- C3: after an in-bounds `DrawSprite`, `VF` is 1 exactly when some set sprite bit
(row `r < N`, column `k < 8`) lies on a pixel that was 1 before the instruction, and
`VF` is 0 exactly when there is none, whatever `VF` held before. -/
theorem C3_draw_in_bounds_collision_flag (c : Chip8) (opcode : Nat)
    (hx : c.v (opX opcode) % 64 ≤ 56)
    (hy : c.v (opY opcode) % 32 + opN opcode ≤ 32)
    (hI : c.i + opN opcode ≤ 4096) :
    ∃ c', DrawSprite c opcode = some c' ∧
      (c'.v 0xF = 1 ↔ ∃ r k, r < opN opcode ∧ k < 8 ∧
        spriteBit (c.memory (c.i + r)) k = 1 ∧
        c.screen (c.v (opY opcode) % 32 + r) (c.v (opX opcode) % 64 + k) = 1) ∧
      (c'.v 0xF = 0 ↔ ¬ ∃ r k, r < opN opcode ∧ k < 8 ∧
        spriteBit (c.memory (c.i + r)) k = 1 ∧
        c.screen (c.v (opY opcode) % 32 + r) (c.v (opX opcode) % 64 + k) = 1) := by
  obtain ⟨c', e, _, _, v, w⟩ := DrawSprite_spec c opcode hx hy hI
  have v' : c'.v 0xF = 1 ↔ ∃ r k, r < opN opcode ∧ k < 8 ∧
      spriteBit (c.memory (c.i + r)) k = 1 ∧
      c.screen (c.v (opY opcode) % 32 + r) (c.v (opX opcode) % 64 + k) = 1 := by
    rw [v]
    constructor
    · rintro ⟨i, j, hi, hj, hb, hp⟩
      exact ⟨i, j, hi, hj, hb, by rw [Nat.add_comm _ i, Nat.add_comm _ j]; exact hp⟩
    · rintro ⟨i, j, hi, hj, hb, hp⟩
      exact ⟨i, j, hi, hj, hb, by rw [Nat.add_comm i, Nat.add_comm j]; exact hp⟩
  refine ⟨c', e, v', ?_⟩
  rw [← v']
  rcases w with h0 | h1
  · simp [h0]
  · simp [h1]

/-- C3 at the machine of `TestDrawSprite` and opcode `0xD013`. -/
theorem C3_draw_in_bounds_collision_flag_witness :
    spriteEx.v (opX 0xD013) % 64 ≤ 56 ∧
    spriteEx.v (opY 0xD013) % 32 + opN 0xD013 ≤ 32 ∧
    spriteEx.i + opN 0xD013 ≤ 4096 ∧
    ∃ c', DrawSprite spriteEx 0xD013 = some c' ∧
      (c'.v 0xF = 1 ↔ ∃ r k, r < opN 0xD013 ∧ k < 8 ∧
        spriteBit (spriteEx.memory (spriteEx.i + r)) k = 1 ∧
        spriteEx.screen (spriteEx.v (opY 0xD013) % 32 + r)
          (spriteEx.v (opX 0xD013) % 64 + k) = 1) ∧
      (c'.v 0xF = 0 ↔ ¬ ∃ r k, r < opN 0xD013 ∧ k < 8 ∧
        spriteBit (spriteEx.memory (spriteEx.i + r)) k = 1 ∧
        spriteEx.screen (spriteEx.v (opY 0xD013) % 32 + r)
          (spriteEx.v (opX 0xD013) % 64 + k) = 1) :=
  ⟨by decide, by decide, by decide,
    C3_draw_in_bounds_collision_flag spriteEx 0xD013 (by decide) (by decide) (by decide)⟩

/-- C4: for an in-bounds opcode whose X and Y fields are not `0xF`, two `DrawSprite`
calls in a row both complete and leave every screen cell as it was before the first. -/
theorem C4_draw_twice_restores_screen (c : Chip8) (opcode : Nat)
    (hX : opX opcode ≠ 0xF) (hY : opY opcode ≠ 0xF)
    (hx : c.v (opX opcode) % 64 ≤ 56)
    (hy : c.v (opY opcode) % 32 + opN opcode ≤ 32)
    (hI : c.i + opN opcode ≤ 4096) :
    ∃ c1 c2, DrawSprite c opcode = some c1 ∧ DrawSprite c1 opcode = some c2 ∧
      ∀ r k, c2.screen r k = c.screen r k := by
  obtain ⟨c1, e1, f1, s1, _, _⟩ := DrawSprite_spec c opcode hx hy hI
  have hvx : c1.v (opX opcode) = c.v (opX opcode) := f1.2.2.2.2.2.2.2.2 _ hX
  have hvy : c1.v (opY opcode) = c.v (opY opcode) := f1.2.2.2.2.2.2.2.2 _ hY
  have hi1 : c1.i = c.i := f1.2.1
  have hm1 : c1.memory = c.memory := f1.1
  obtain ⟨c2, e2, _, s2, _, _⟩ := DrawSprite_spec c1 opcode
    (by rw [hvx]; exact hx) (by rw [hvy]; exact hy) (by rw [hi1]; exact hI)
  refine ⟨c1, c2, e1, e2, ?_⟩
  intro r k
  rw [s2, hvx, hvy, hi1, hm1, s1]
  split
  · rw [Nat.xor_assoc, Nat.xor_self, Nat.xor_zero]
  · rfl

/-- C4 at the machine of `TestDrawSprite` and opcode `0xD013`. -/
theorem C4_draw_twice_restores_screen_witness :
    opX 0xD013 ≠ 0xF ∧ opY 0xD013 ≠ 0xF ∧
    spriteEx.v (opX 0xD013) % 64 ≤ 56 ∧
    spriteEx.v (opY 0xD013) % 32 + opN 0xD013 ≤ 32 ∧
    spriteEx.i + opN 0xD013 ≤ 4096 ∧
    ∃ c1 c2, DrawSprite spriteEx 0xD013 = some c1 ∧ DrawSprite c1 0xD013 = some c2 ∧
      ∀ r k, c2.screen r k = spriteEx.screen r k :=
  ⟨by decide, by decide, by decide, by decide, by decide,
    C4_draw_twice_restores_screen spriteEx 0xD013 (by decide) (by decide) (by decide)
      (by decide) (by decide)⟩

/-- C5 (defect in `DrawSprite`): with `VX = 60`, `VY = 0`, `I = 0x300` (so `I + N ≤ 4096`)
and the one-row sprite `0xFF`, `DrawSprite` does not complete: sprite column 4 indexes
screen column `60 + 4 = 64`, which is out of range, instead of wrapping to column 0. -/
theorem C5_draw_no_wrap_at_right_edge :
    wrapEx.v (opX 0xD011) = 60 ∧ wrapEx.i + opN 0xD011 ≤ 4096 ∧
      wrapEx.memory wrapEx.i = 0xFF ∧ DrawSprite wrapEx 0xD011 = none :=
  ⟨by decide, by decide, by decide, rfl⟩

/-! ## Subroutine calls -/

/-- C6 (defect in `CallSubroutine`): from `sp = 0`, `pc = 0x202`, `stack[1] = 0xABC`,
`CallSubroutine` ends with `sp = 1`, `stack[1] = 0xABC` (the program counter `0x202` is
not stored) and `pc = 0xABC` (read from the stack slot, not the `NNN` of the opcode). -/
theorem C6_call_reads_stack_instead_of_pushing :
    callEx.sp < 15 ∧ callEx.pc = 0x202 ∧
      (CallSubroutine callEx).map (fun c => (c.sp, c.stack c.sp, c.pc)) =
        some (1, 0xABC, 0xABC) := by
  decide

/-- C7 (defect in `CallSubroutine`): from `sp = 0`, `pc = 0x202`, a call followed by a
return restores `sp = 0` but ends with `pc = stack[0] = 0`, not the pre-call `0x202`. -/
theorem C7_call_then_return_loses_pc :
    callEx.sp < 15 ∧ callEx.pc = 0x202 ∧
      ((CallSubroutine callEx).bind ReturnFromSubroutine).map (fun c => (c.sp, c.pc)) =
        some (0, 0) := by
  decide

/-- C8 (defect in `CallSubroutine`): from the zero machine (`sp = 0`) fifteen
consecutive calls complete, reaching `sp = 15`, and the sixteenth faults: it indexes
`stack[16]`. -/
theorem C8_sixteenth_call_faults :
    Chip8.zero.sp = 0 ∧ (callN 15 Chip8.zero).map (fun c => c.sp) = some 15 ∧
      (callN 16 Chip8.zero).isSome = false := by
  decide

/-! ## ExecuteOpcode -/

/-- C9 (defect in `Fetch`, seen through `ExecuteOpcode`): on the program `60 05 70 03`
at `pc = 0x200`, two `ExecuteOpcode` calls complete with `pc = 0x204` and leave `V0 = 0`,
while `(0x05 + 0x03) % 256 = 8`. -/
theorem C9_load_then_add_leaves_register :
    addEx.pc ≤ 4092 ∧
      ((ExecuteOpcode addEx).bind ExecuteOpcode).map (fun c => (c.v 0, c.pc)) =
        some (0, 0x204) ∧
      (0x05 + 0x03) % 256 = 8 := by
  decide

/-- C10 (defect in `Fetch`, seen through `ExecuteOpcode`): on the undefined word `F0 E0`
(of the form `FXE0`) at `pc = 0x200` with the pixel at row 0, column 0 lit,
`ExecuteOpcode` completes with `pc = 0x202` but the pixel is cleared: the word is
executed as `00E0`. -/
theorem C10_undefined_word_clears_screen :
    undefEx.pc ≤ 4094 ∧ undefEx.screen 0 0 = 1 ∧
      (ExecuteOpcode undefEx).map (fun c => (c.pc, c.screen 0 0)) = some (0x202, 0) := by
  decide

/-! ## The further concrete machines hold values of their Go types -/

theorem vfEx_WF : vfEx.WF :=
  ⟨setAt_lt _ _ _ _ zero_WF.1 (by decide), setAt_lt _ _ _ _ zero_WF.2.1 (by decide),
    by decide, by decide, by decide, zero_WF.2.2.2.2.2.1, by decide, by decide,
    zero_WF.2.2.2.2.2.2.2.2.1, zero_WF.2.2.2.2.2.2.2.2.2⟩

theorem pcEndEx_WF : pcEndEx.WF :=
  ⟨zero_WF.1, zero_WF.2.1, by decide, by decide, by decide, zero_WF.2.2.2.2.2.1,
    by decide, by decide, zero_WF.2.2.2.2.2.2.2.2.1, zero_WF.2.2.2.2.2.2.2.2.2⟩

theorem retEx_WF : retEx.WF :=
  ⟨setAt_lt _ _ _ _ zero_WF.1 (by decide), zero_WF.2.1, by decide, by decide, by decide,
    setAt_lt _ _ _ _ zero_WF.2.2.2.2.2.1 (by decide), by decide, by decide,
    zero_WF.2.2.2.2.2.2.2.2.1, zero_WF.2.2.2.2.2.2.2.2.2⟩

theorem farEx_WF : farEx.WF :=
  ⟨zero_WF.1, zero_WF.2.1, by decide, by decide, by decide, zero_WF.2.2.2.2.2.1,
    by decide, by decide, zero_WF.2.2.2.2.2.2.2.2.1, zero_WF.2.2.2.2.2.2.2.2.2⟩

theorem retEmptyEx_WF : retEmptyEx.WF :=
  ⟨setAt_lt _ _ _ _ zero_WF.1 (by decide), zero_WF.2.1, by decide, by decide, by decide,
    zero_WF.2.2.2.2.2.1, by decide, by decide, zero_WF.2.2.2.2.2.2.2.2.1,
    zero_WF.2.2.2.2.2.2.2.2.2⟩

/-! ## What every completed draw keeps -/

theorem DrawStep.here (c : Chip8) : DrawStep c c :=
  ⟨DrawFrame.same c, id, Or.inl rfl⟩

theorem DrawStep.andThen {a b c : Chip8} (h1 : DrawStep a b) (h2 : DrawStep b c) :
    DrawStep a c := by
  refine ⟨h1.1.comp h2.1, fun h => h2.2.1 (h1.2.1 h), ?_⟩
  rcases h2.2.2 with e | e
  · rcases h1.2.2 with e1 | e1
    · exact Or.inl (e.trans e1)
    · exact Or.inr (e.trans e1)
  · exact Or.inr e

theorem drawCol_step (sb ry x col : Nat) (c c' : Chip8)
    (h : drawCol sb ry x col c = some c') : DrawStep c c' := by
  unfold drawCol at h
  by_cases hbit : sb &&& (0x80 >>> col) ≠ 0
  · rw [if_pos hbit] at h
    by_cases hin : ry < row_size ∧ col + x < col_size
    · rw [if_pos hin] at h
      have hbin : ∀ (s : Nat → Nat → Nat),
          (∀ r k, r < row_size → k < col_size → s r k = 0 ∨ s r k = 1) →
          ∀ r k, r < row_size → k < col_size →
            setAt2 s ry (col + x) (s ry (col + x) ^^^ 1) r k = 0 ∨
            setAt2 s ry (col + x) (s ry (col + x) ^^^ 1) r k = 1 := by
        intro s hs r k hr hk
        unfold setAt2 setAt
        by_cases h1 : r = ry
        · by_cases h2 : k = col + x
          · rw [if_pos h1, if_pos h2]
            rcases hs ry (col + x) hin.1 hin.2 with e | e
            · rw [e]; exact Or.inr rfl
            · rw [e]; exact Or.inl rfl
          · rw [if_pos h1, if_neg h2]
            exact hs r k hr hk
        · rw [if_neg h1]
          exact hs r k hr hk
      by_cases hon : c.screen ry (col + x) = 1
      · simp only [if_pos hon] at h
        cases h
        refine ⟨⟨rfl, rfl, rfl, rfl, rfl, rfl, rfl, rfl, ?_⟩, ?_, Or.inr ?_⟩
        · intro k hk
          simp [setAt, hk]
        · intro hb
          exact hbin c.screen hb
        · simp [setAt]
      · simp only [if_neg hon] at h
        cases h
        exact ⟨DrawFrame.same c, fun hb => hbin c.screen hb, Or.inl rfl⟩
    · rw [if_neg hin] at h
      cases h
  · rw [if_neg hbit] at h
    cases h
    exact DrawStep.here c

theorem drawCols_step (sb ry x : Nat) :
    ∀ (n col : Nat) (c c' : Chip8), drawCols sb ry x n col c = some c' → DrawStep c c' := by
  intro n
  induction n with
  | zero =>
    intro col c c' h
    cases h
    exact DrawStep.here c
  | succ n ih =>
    intro col c c' h
    obtain ⟨c1, h1, h2⟩ := Option.bind_eq_some.mp h
    exact (drawCol_step sb ry x col c c1 h1).andThen (ih (col + 1) c1 c' h2)

theorem drawRow_step (y x row : Nat) (c c' : Chip8) (h : drawRow y x row c = some c') :
    (c.i + row) % 65536 < 4096 ∧ DrawStep c c' := by
  unfold drawRow at h
  by_cases ha : (c.i + row) % 65536 < 4096
  · rw [if_pos ha] at h
    exact ⟨ha, drawCols_step _ _ _ 8 0 c c' h⟩
  · rw [if_neg ha] at h
    cases h

theorem drawRows_step (y x : Nat) :
    ∀ (n row : Nat) (c c' : Chip8), drawRows y x n row c = some c' →
      DrawStep c c' ∧ ∀ r, row ≤ r → r < row + n → (c.i + r) % 65536 < 4096 := by
  intro n
  induction n with
  | zero =>
    intro row c c' h
    cases h
    exact ⟨DrawStep.here c, fun r h1 h2 => absurd h2 (by omega)⟩
  | succ n ih =>
    intro row c c' h
    obtain ⟨c1, h1, h2⟩ := Option.bind_eq_some.mp h
    obtain ⟨ha, s1⟩ := drawRow_step y x row c c1 h1
    obtain ⟨s2, hr⟩ := ih (row + 1) c1 c' h2
    refine ⟨s1.andThen s2, ?_⟩
    intro r hr1 hr2
    by_cases e : r = row
    · rw [e]
      exact ha
    · have hi : c1.i = c.i := s1.1.2.1
      rw [← hi]
      exact hr r (by omega) (by omega)

/-- Any completed `DrawSprite`: the frame is kept, binary pixels stay binary, `VF` ends
as 0 or 1, and every sprite row address was inside the memory array. -/
theorem DrawSprite_step (c c' : Chip8) (opcode : Nat) (h : DrawSprite c opcode = some c') :
    DrawFrame c c' ∧ (BinaryScreen c → BinaryScreen c') ∧ (c'.v 15 = 0 ∨ c'.v 15 = 1) ∧
      ∀ r, r < opN opcode → (c.i + r) % 65536 < 4096 := by
  unfold DrawSprite at h
  obtain ⟨⟨f, b, w⟩, hr⟩ := drawRows_step _ _ _ 0 _ c' h
  have f0 : DrawFrame c { c with v := setAt c.v 0xF 0 } := by
    refine ⟨rfl, rfl, rfl, rfl, rfl, rfl, rfl, rfl, ?_⟩
    intro k hk
    simp [setAt, hk]
  have hv0 : ({ c with v := setAt c.v 0xF 0 } : Chip8).v 15 = 0 := by simp [setAt]
  rw [hv0] at w
  refine ⟨f0.comp f, fun hb => b hb, w, ?_⟩
  intro r hr1
  exact hr r (Nat.zero_le _) (by simpa using hr1)

/-! ## In-bounds draws, in rectangle coordinates -/

theorem xor_one_eq_one_iff (p : Nat) : p ^^^ 1 = 1 ↔ p = 0 := by
  constructor
  · intro h
    have h2 : (p ^^^ 1) ^^^ 1 = 0 := by rw [h]; rfl
    rwa [Nat.xor_assoc, Nat.xor_self, Nat.xor_zero] at h2
  · intro h
    rw [h]
    rfl

/-- The in-bounds draw, with pixels addressed from the corner `(VX % 64, VY % 32)`. -/
theorem DrawSprite_rect (c : Chip8) (opcode : Nat)
    (hx : c.v (opX opcode) % 64 ≤ 56)
    (hy : c.v (opY opcode) % 32 + opN opcode ≤ 32)
    (hI : c.i + opN opcode ≤ 4096) :
    ∃ c', DrawSprite c opcode = some c' ∧ DrawFrame c c' ∧
      (∀ r k, r < opN opcode → k < 8 →
        c'.screen (c.v (opY opcode) % 32 + r) (c.v (opX opcode) % 64 + k) =
          c.screen (c.v (opY opcode) % 32 + r) (c.v (opX opcode) % 64 + k) ^^^
            spriteBit (c.memory (c.i + r)) k) ∧
      (∀ r k, ¬ (c.v (opY opcode) % 32 ≤ r ∧ r < c.v (opY opcode) % 32 + opN opcode ∧
          c.v (opX opcode) % 64 ≤ k ∧ k < c.v (opX opcode) % 64 + 8) →
        c'.screen r k = c.screen r k) ∧
      (c'.v 15 = 1 ↔ ∃ r k, r < opN opcode ∧ k < 8 ∧
        spriteBit (c.memory (c.i + r)) k = 1 ∧
        c.screen (c.v (opY opcode) % 32 + r) (c.v (opX opcode) % 64 + k) = 1) ∧
      (c'.v 15 = 0 ∨ c'.v 15 = 1) := by
  obtain ⟨c', e, f, s, v, w⟩ := DrawSprite_spec c opcode hx hy hI
  refine ⟨c', e, f, ?_, ?_, ?_, w⟩
  · intro r k hr hk
    rw [s, if_pos ⟨by omega, by omega, by omega, by omega⟩]
    congr 3 <;> omega
  · intro r k h
    rw [s, if_neg h]
  · rw [v]
    constructor
    · rintro ⟨i, j, hi, hj, hb, hp⟩
      exact ⟨i, j, hi, hj, hb, by rw [Nat.add_comm _ i, Nat.add_comm _ j]; exact hp⟩
    · rintro ⟨i, j, hi, hj, hb, hp⟩
      exact ⟨i, j, hi, hj, hb, by rw [Nat.add_comm i, Nat.add_comm j]; exact hp⟩

/-- Two in-bounds draws in a row with X, Y fields other than `0xF`: both complete, and
the second one reports a collision exactly when a set sprite bit lay on a pixel that
was 0 before the first draw. -/
theorem DrawSprite_twice (c : Chip8) (opcode : Nat)
    (hX : opX opcode ≠ 0xF) (hY : opY opcode ≠ 0xF)
    (hx : c.v (opX opcode) % 64 ≤ 56)
    (hy : c.v (opY opcode) % 32 + opN opcode ≤ 32)
    (hI : c.i + opN opcode ≤ 4096) :
    ∃ c1 c2, DrawSprite c opcode = some c1 ∧ DrawSprite c1 opcode = some c2 ∧
      (c2.v 15 = 1 ↔ ∃ r k, r < opN opcode ∧ k < 8 ∧
        spriteBit (c.memory (c.i + r)) k = 1 ∧
        c.screen (c.v (opY opcode) % 32 + r) (c.v (opX opcode) % 64 + k) = 0) ∧
      (c2.v 15 = 0 ∨ c2.v 15 = 1) := by
  obtain ⟨c1, e1, f1, s1, _, _, _⟩ := DrawSprite_rect c opcode hx hy hI
  have hvx : c1.v (opX opcode) = c.v (opX opcode) := f1.2.2.2.2.2.2.2.2 _ hX
  have hvy : c1.v (opY opcode) = c.v (opY opcode) := f1.2.2.2.2.2.2.2.2 _ hY
  have hi1 : c1.i = c.i := f1.2.1
  have hm1 : c1.memory = c.memory := f1.1
  obtain ⟨c2, e2, _, _, _, v2, w2⟩ := DrawSprite_rect c1 opcode
    (by rw [hvx]; exact hx) (by rw [hvy]; exact hy) (by rw [hi1]; exact hI)
  refine ⟨c1, c2, e1, e2, ?_, w2⟩
  rw [v2, hvx, hvy, hi1, hm1]
  constructor
  · rintro ⟨r, k, hr, hk, hb, hp⟩
    rw [s1 r k hr hk, hb] at hp
    exact ⟨r, k, hr, hk, hb, (xor_one_eq_one_iff _).mp hp⟩
  · rintro ⟨r, k, hr, hk, hb, hp⟩
    refine ⟨r, k, hr, hk, hb, ?_⟩
    rw [s1 r k hr hk, hb]
    exact (xor_one_eq_one_iff _).mpr hp

/-! ## Register arithmetic -/

/-- C11: `AddtoRegister` sets `VX` to `(VX + NN) % 256` and changes nothing else: the
other V registers, I, PC, SP, the stack, memory, the timers, the keys and the screen
are as before. -/
theorem C11_add_to_register (c : Chip8) (opcode : Nat) :
    (AddtoRegister c opcode).v (opX opcode) =
        (c.v (opX opcode) + (opcode &&& 0x00FF)) % 256 ∧
      (∀ k, k ≠ opX opcode → (AddtoRegister c opcode).v k = c.v k) ∧
      (AddtoRegister c opcode).i = c.i ∧
      (AddtoRegister c opcode).pc = c.pc ∧
      (AddtoRegister c opcode).sp = c.sp ∧
      (AddtoRegister c opcode).stack = c.stack ∧
      (AddtoRegister c opcode).memory = c.memory ∧
      (AddtoRegister c opcode).delay_timer = c.delay_timer ∧
      (AddtoRegister c opcode).sound_timer = c.sound_timer ∧
      (AddtoRegister c opcode).keys = c.keys ∧
      (AddtoRegister c opcode).screen = c.screen := by
  refine ⟨?_, ?_, rfl, rfl, rfl, rfl, rfl, rfl, rfl, rfl, rfl⟩
  · simp [AddtoRegister, setAt, opX]
  · intro k hk
    simp only [AddtoRegister, setAt, opX] at hk ⊢
    rw [if_neg hk]

/-! ## Drawing twice -/

/-- C12: for an in-bounds opcode with X, Y fields other than `0xF`, a sprite with at
least one set bit, and a screen where every pixel under a set sprite bit is 0, the two
draws complete and `VF` is 1 after the second draw. -/
theorem C12_second_draw_reports_collision (c : Chip8) (opcode : Nat)
    (hX : opX opcode ≠ 0xF) (hY : opY opcode ≠ 0xF)
    (hx : c.v (opX opcode) % 64 ≤ 56)
    (hy : c.v (opY opcode) % 32 + opN opcode ≤ 32)
    (hI : c.i + opN opcode ≤ 4096)
    (hbit : ∃ r k, r < opN opcode ∧ k < 8 ∧ spriteBit (c.memory (c.i + r)) k = 1)
    (hoff : ∀ r k, r < opN opcode → k < 8 → spriteBit (c.memory (c.i + r)) k = 1 →
      c.screen (c.v (opY opcode) % 32 + r) (c.v (opX opcode) % 64 + k) = 0) :
    ∃ c1 c2, DrawSprite c opcode = some c1 ∧ DrawSprite c1 opcode = some c2 ∧
      c2.v 0xF = 1 := by
  obtain ⟨c1, c2, e1, e2, v2, _⟩ := DrawSprite_twice c opcode hX hY hx hy hI
  obtain ⟨r, k, hr, hk, hb⟩ := hbit
  exact ⟨c1, c2, e1, e2, v2.mpr ⟨r, k, hr, hk, hb, hoff r k hr hk hb⟩⟩

/-- C12 at the machine of `TestDrawSprite` and opcode `0xD013`. -/
theorem C12_second_draw_reports_collision_witness :
    ∃ c1 c2, DrawSprite spriteEx 0xD013 = some c1 ∧ DrawSprite c1 0xD013 = some c2 ∧
      c2.v 0xF = 1 :=
  C12_second_draw_reports_collision spriteEx 0xD013 (by decide) (by decide) (by decide)
    (by decide) (by decide) ⟨0, 0, by decide, by decide, by decide⟩
    (fun _ _ _ _ _ => rfl)

/-- C13, as stated, fails: on the machine of `TestDrawSprite` (blank screen, in-bounds
opcode `0xD013`, X = 0, Y = 1) the second of two draws leaves `VF = 1`. -/
theorem C13_counterexample :
    opX 0xD013 ≠ 0xF ∧ opY 0xD013 ≠ 0xF ∧
    spriteEx.v (opX 0xD013) % 64 ≤ 56 ∧
    spriteEx.v (opY 0xD013) % 32 + opN 0xD013 ≤ 32 ∧
    spriteEx.i + opN 0xD013 ≤ 4096 ∧
    (∀ r k, spriteEx.screen r k = 0) ∧
    ((DrawSprite spriteEx 0xD013).bind fun c1 => DrawSprite c1 0xD013).map
      (fun c2 => c2.v 0xF) = some 1 :=
  ⟨by decide, by decide, by decide, by decide, by decide, fun _ _ => rfl, by decide⟩

/-- C13, amended: for an in-bounds opcode with X, Y fields other than `0xF` drawn onto
a rectangle whose pixels are all 0, the two draws complete and `VF` is 0 after the
second draw exactly when the sprite has no set bit; otherwise it is 1. -/
theorem C13_second_draw_flag_zero_iff_blank_sprite (c : Chip8) (opcode : Nat)
    (hX : opX opcode ≠ 0xF) (hY : opY opcode ≠ 0xF)
    (hx : c.v (opX opcode) % 64 ≤ 56)
    (hy : c.v (opY opcode) % 32 + opN opcode ≤ 32)
    (hI : c.i + opN opcode ≤ 4096)
    (hoff : ∀ r k, r < opN opcode → k < 8 →
      c.screen (c.v (opY opcode) % 32 + r) (c.v (opX opcode) % 64 + k) = 0) :
    ∃ c1 c2, DrawSprite c opcode = some c1 ∧ DrawSprite c1 opcode = some c2 ∧
      (c2.v 0xF = 0 ↔
        ∀ r k, r < opN opcode → k < 8 → spriteBit (c.memory (c.i + r)) k = 0) ∧
      (c2.v 0xF = 0 ∨ c2.v 0xF = 1) := by
  obtain ⟨c1, c2, e1, e2, v2, w2⟩ := DrawSprite_twice c opcode hX hY hx hy hI
  refine ⟨c1, c2, e1, e2, ?_, w2⟩
  constructor
  · intro h0 r k hr hk
    rcases spriteBit_le_one (c.memory (c.i + r)) k with hb | hb
    · exact hb
    · have h1 : c2.v 15 = 1 := v2.mpr ⟨r, k, hr, hk, hb, hoff r k hr hk⟩
      rw [h0] at h1
      exact absurd h1 (by decide)
  · intro hall
    rcases w2 with h0 | h1
    · exact h0
    · obtain ⟨r, k, hr, hk, hb, _⟩ := v2.mp h1
      rw [hall r k hr hk] at hb
      exact absurd hb (by decide)

/-- C13 amended, at the machine of `TestDrawSprite` and opcode `0xD013`. -/
theorem C13_second_draw_flag_zero_iff_blank_sprite_witness :
    ∃ c1 c2, DrawSprite spriteEx 0xD013 = some c1 ∧ DrawSprite c1 0xD013 = some c2 ∧
      (c2.v 0xF = 0 ↔
        ∀ r k, r < opN 0xD013 → k < 8 →
          spriteBit (spriteEx.memory (spriteEx.i + r)) k = 0) ∧
      (c2.v 0xF = 0 ∨ c2.v 0xF = 1) :=
  C13_second_draw_flag_zero_iff_blank_sprite spriteEx 0xD013 (by decide) (by decide)
    (by decide) (by decide) (by decide) (fun _ _ _ _ => rfl)

/-! ## Case analysis of `ExecuteOpcode` -/

/-- The branch a completed `ExecuteOpcode` took; `c1` is the state after `pc += 2`. -/
theorem ExecuteOpcode_cases (c c' : Chip8) (h : ExecuteOpcode c = some c') :
    ∃ op, Fetch c = some op ∧
      ((op = 0x00E0 ∧ c' = ClearScreen { c with pc := (c.pc + 2) % 65536 }) ∨
       (op = 0x00EE ∧ ReturnFromSubroutine { c with pc := (c.pc + 2) % 65536 } = some c') ∨
       (op &&& 0xF000 = 0x1000 ∧ c' = JumpToAddr { c with pc := (c.pc + 2) % 65536 } op) ∨
       (op &&& 0xF000 = 0x2000 ∧ CallSubroutine { c with pc := (c.pc + 2) % 65536 } = some c') ∨
       (op &&& 0xF000 = 0x6000 ∧
          c' = LoadValueIntoRegister { c with pc := (c.pc + 2) % 65536 } op) ∨
       (op &&& 0xF000 = 0x7000 ∧ c' = AddtoRegister { c with pc := (c.pc + 2) % 65536 } op) ∨
       (op &&& 0xF000 = 0xA000 ∧ c' = SetIndexToAddr { c with pc := (c.pc + 2) % 65536 } op) ∨
       (op &&& 0xF000 = 0xD000 ∧ DrawSprite { c with pc := (c.pc + 2) % 65536 } op = some c') ∨
       c' = { c with pc := (c.pc + 2) % 65536 }) := by
  unfold ExecuteOpcode at h
  obtain ⟨op, hF, h2⟩ := Option.bind_eq_some.mp h
  refine ⟨op, hF, ?_⟩
  simp only [] at h2
  by_cases h0 : op &&& 0xF000 = 0x0000
  · rw [if_pos h0] at h2
    by_cases hE0 : op = 0x00E0
    · rw [if_pos hE0] at h2
      exact Or.inl ⟨hE0, (Option.some.inj h2).symm⟩
    · rw [if_neg hE0] at h2
      by_cases hEE : op = 0x00EE
      · rw [if_pos hEE] at h2
        exact Or.inr (Or.inl ⟨hEE, h2⟩)
      · rw [if_neg hEE] at h2
        exact Or.inr (Or.inr (Or.inr (Or.inr (Or.inr (Or.inr (Or.inr (Or.inr
          (Option.some.inj h2).symm)))))))
  · rw [if_neg h0] at h2
    by_cases h1 : op &&& 0xF000 = 0x1000
    · rw [if_pos h1] at h2
      exact Or.inr (Or.inr (Or.inl ⟨h1, (Option.some.inj h2).symm⟩))
    · rw [if_neg h1] at h2
      by_cases h2' : op &&& 0xF000 = 0x2000
      · rw [if_pos h2'] at h2
        exact Or.inr (Or.inr (Or.inr (Or.inl ⟨h2', h2⟩)))
      · rw [if_neg h2'] at h2
        by_cases h6 : op &&& 0xF000 = 0x6000
        · rw [if_pos h6] at h2
          exact Or.inr (Or.inr (Or.inr (Or.inr (Or.inl ⟨h6, (Option.some.inj h2).symm⟩))))
        · rw [if_neg h6] at h2
          by_cases h7 : op &&& 0xF000 = 0x7000
          · rw [if_pos h7] at h2
            exact Or.inr (Or.inr (Or.inr (Or.inr (Or.inr
              (Or.inl ⟨h7, (Option.some.inj h2).symm⟩)))))
          · rw [if_neg h7] at h2
            by_cases hA : op &&& 0xF000 = 0xA000
            · rw [if_pos hA] at h2
              exact Or.inr (Or.inr (Or.inr (Or.inr (Or.inr (Or.inr
                (Or.inl ⟨hA, (Option.some.inj h2).symm⟩))))))
            · rw [if_neg hA] at h2
              by_cases hD : op &&& 0xF000 = 0xD000
              · rw [if_pos hD] at h2
                exact Or.inr (Or.inr (Or.inr (Or.inr (Or.inr (Or.inr (Or.inr
                  (Or.inl ⟨hD, h2⟩)))))))
              · rw [if_neg hD] at h2
                simp only [ite_self] at h2
                exact Or.inr (Or.inr (Or.inr (Or.inr (Or.inr (Or.inr (Or.inr (Or.inr
                  (Option.some.inj h2).symm)))))))

/-- With byte-valued memory the fetched opcode is below 256. -/
theorem Fetch_lt (c : Chip8) (op : Nat) (hwf : c.WF) (h : Fetch c = some op) : op < 256 := by
  unfold Fetch at h
  by_cases h1 : c.pc < 4096
  · rw [if_pos h1] at h
    by_cases h2 : (c.pc + 1) % 65536 < 4096
    · rw [if_pos h2] at h
      have hsh : (c.memory c.pc <<< 8) % 256 = 0 := by
        rw [Nat.shiftLeft_eq]
        exact Nat.mul_mod_left _ _
      rw [hsh, Nat.zero_or] at h
      have hb := hwf.1 ((c.pc + 1) % 65536)
      have := Option.some.inj h
      omega
    · rw [if_neg h2] at h
      cases h
  · rw [if_neg h1] at h
    cases h

theorem and_F000_of_lt (op : Nat) (h : op < 256) : op &&& 0xF000 = 0 := by
  interval_cases op <;> rfl

theorem ReturnFromSubroutine_some (c c' : Chip8) (h : ReturnFromSubroutine c = some c') :
    (c.sp + 65535) % 65536 < 16 ∧
      c' = { c with sp := (c.sp + 65535) % 65536, pc := c.stack ((c.sp + 65535) % 65536) } := by
  unfold ReturnFromSubroutine at h
  simp only [] at h
  by_cases hs : (c.sp + 65535) % 65536 < 16
  · rw [if_pos hs] at h
    exact ⟨hs, (Option.some.inj h).symm⟩
  · rw [if_neg hs] at h
    cases h

theorem CallSubroutine_some (c c' : Chip8) (h : CallSubroutine c = some c') :
    (c.sp + 1) % 65536 < 16 ∧
      c' = { c with sp := (c.sp + 1) % 65536, pc := c.stack ((c.sp + 1) % 65536) } := by
  unfold CallSubroutine at h
  simp only [] at h
  by_cases hs : (c.sp + 1) % 65536 < 16
  · rw [if_pos hs] at h
    exact ⟨hs, (Option.some.inj h).symm⟩
  · rw [if_neg hs] at h
    cases h

theorem BinaryScreen_of_screen_eq (c c' : Chip8) (h : c'.screen = c.screen)
    (hb : BinaryScreen c) : BinaryScreen c' := by
  intro r k hr hk
  rw [h]
  exact hb r k hr hk

theorem BinaryScreen_ClearScreen (c : Chip8) : BinaryScreen (ClearScreen c) := by
  intro r k hr hk
  left
  simp only [ClearScreen]
  rw [if_pos ⟨hr, hk⟩]

/-! ## Program counter -/

/-- C14, as stated, fails: from the even `pc = 4094` on zeroed memory `ExecuteOpcode`
completes with `pc = 4096`; and from the even `pc = 0x200` the return `00 EE` with
`stack[0] = 0x203` completes with the odd `pc = 0x203`. -/
theorem C14_counterexample :
    pcEndEx.pc % 2 = 0 ∧ pcEndEx.pc ≤ 4094 ∧
      (ExecuteOpcode pcEndEx).map (fun c => c.pc) = some 4096 ∧
    retEx.pc % 2 = 0 ∧ retEx.pc ≤ 4094 ∧
      (ExecuteOpcode retEx).map (fun c => c.pc) = some 0x203 := by
  decide

/-- C14, amended: from an even `pc ≤ 4092`, whenever `ExecuteOpcode` completes on a
fetched opcode that is not a return (`00EE`), a jump (`1NNN`) or a call (`2NNN`), the
resulting `pc` is `pc + 2`, again even and at most 4094. -/
theorem C14_pc_advances_by_two (c c' : Chip8) (op : Nat)
    (heven : c.pc % 2 = 0) (hpc : c.pc ≤ 4092)
    (hF : Fetch c = some op)
    (hret : op ≠ 0x00EE) (hjmp : op &&& 0xF000 ≠ 0x1000) (hcall : op &&& 0xF000 ≠ 0x2000)
    (h : ExecuteOpcode c = some c') :
    c'.pc = c.pc + 2 ∧ c'.pc % 2 = 0 ∧ c'.pc ≤ 4094 := by
  have hmod : (c.pc + 2) % 65536 = c.pc + 2 := Nat.mod_eq_of_lt (by omega)
  have key : c'.pc = c.pc + 2 := by
    obtain ⟨op', hF', hc⟩ := ExecuteOpcode_cases c c' h
    have hop : op' = op := Option.some.inj (hF'.symm.trans hF)
    subst hop
    rcases hc with ⟨_, e⟩ | ⟨e, _⟩ | ⟨e, _⟩ | ⟨e, _⟩ | ⟨_, e⟩ | ⟨_, e⟩ | ⟨_, e⟩ | ⟨_, e⟩ | e
    · rw [e]; exact hmod
    · exact absurd e hret
    · exact absurd e hjmp
    · exact absurd e hcall
    · rw [e]; exact hmod
    · rw [e]; exact hmod
    · rw [e]; exact hmod
    · have f := (DrawSprite_step _ c' op' e).1
      rw [f.2.2.1]
      exact hmod
    · rw [e]; exact hmod
  exact ⟨key, by omega, by omega⟩

/-- C14 amended, at the program `60 05 70 03` with `pc = 0x200`. -/
theorem C14_pc_advances_by_two_witness :
    addEx.pc % 2 = 0 ∧ addEx.pc ≤ 4092 ∧ Fetch addEx = some 0x05 ∧
      ExecuteOpcode addEx = some { addEx with pc := 0x202 } ∧
      ({ addEx with pc := 0x202 } : Chip8).pc = addEx.pc + 2 ∧
      ({ addEx with pc := 0x202 } : Chip8).pc % 2 = 0 ∧
      ({ addEx with pc := 0x202 } : Chip8).pc ≤ 4094 :=
  ⟨by decide, by decide, rfl, rfl,
    C14_pc_advances_by_two addEx { addEx with pc := 0x202 } 0x05 (by decide) (by decide) rfl
      (by decide) (by decide) (by decide) rfl⟩

/-! ## Return on an empty stack -/

/-- C15: with `sp = 0`, `ReturnFromSubroutine` does not complete (`sp--` wraps to 65535
and `stack[65535]` is out of range), and neither does `ExecuteOpcode` when the fetched
opcode is `00EE`: no successor state with a loaded `pc` exists. -/
theorem C15_return_on_empty_stack_faults (c : Chip8) (hsp : c.sp = 0) :
    ReturnFromSubroutine c = none ∧ (Fetch c = some 0x00EE → ExecuteOpcode c = none) := by
  constructor
  · unfold ReturnFromSubroutine
    simp only [hsp]
    rfl
  · intro hF
    unfold ExecuteOpcode
    rw [hF]
    simp only [Option.bind, ReturnFromSubroutine, hsp]
    rfl

/-- C15 at the machine with `sp = 0` whose next word is `00 EE`. -/
theorem C15_return_on_empty_stack_faults_witness :
    retEmptyEx.sp = 0 ∧ Fetch retEmptyEx = some 0x00EE ∧
      ReturnFromSubroutine retEmptyEx = none ∧ ExecuteOpcode retEmptyEx = none :=
  ⟨rfl, rfl, (C15_return_on_empty_stack_faults retEmptyEx rfl).1,
    (C15_return_on_empty_stack_faults retEmptyEx rfl).2 rfl⟩

/-! ## What `ExecuteOpcode` leaves alone -/

/-- C18: for a machine with byte-valued memory and `pc ≤ 4094`, a completed
`ExecuteOpcode` leaves every V register, `I` and every memory byte unchanged, whatever
the two bytes at `pc` are, and likewise the stack, both timers and the keys: only `pc`,
`sp` and the screen can differ from the prior state. -/
theorem C18_execute_keeps_registers_and_memory (c c' : Chip8) (hwf : c.WF)
    (hpc : c.pc ≤ 4094) (h : ExecuteOpcode c = some c') :
    (∀ k, c'.v k = c.v k) ∧ c'.i = c.i ∧ (∀ a, c'.memory a = c.memory a) ∧
      (∀ k, c'.stack k = c.stack k) ∧ c'.delay_timer = c.delay_timer ∧
      c'.sound_timer = c.sound_timer ∧ (∀ k, c'.keys k = c.keys k) := by
  have _ := hpc
  obtain ⟨op, hF, hc⟩ := ExecuteOpcode_cases c c' h
  have h0 : op &&& 0xF000 = 0 := and_F000_of_lt op (Fetch_lt c op hwf hF)
  rcases hc with ⟨_, e⟩ | ⟨_, e⟩ | ⟨e, _⟩ | ⟨e, _⟩ | ⟨e, _⟩ | ⟨e, _⟩ | ⟨e, _⟩ | ⟨e, _⟩ | e
  · rw [e]
    exact ⟨fun _ => rfl, rfl, fun _ => rfl, fun _ => rfl, rfl, rfl, fun _ => rfl⟩
  · rw [(ReturnFromSubroutine_some _ c' e).2]
    exact ⟨fun _ => rfl, rfl, fun _ => rfl, fun _ => rfl, rfl, rfl, fun _ => rfl⟩
  · rw [h0] at e
    exact absurd e (by decide)
  · rw [h0] at e
    exact absurd e (by decide)
  · rw [h0] at e
    exact absurd e (by decide)
  · rw [h0] at e
    exact absurd e (by decide)
  · rw [h0] at e
    exact absurd e (by decide)
  · rw [h0] at e
    exact absurd e (by decide)
  · rw [e]
    exact ⟨fun _ => rfl, rfl, fun _ => rfl, fun _ => rfl, rfl, rfl, fun _ => rfl⟩

/-- C18 at the program `60 05 70 03` with `pc = 0x200`. -/
theorem C18_execute_keeps_registers_and_memory_witness :
    addEx.WF ∧ addEx.pc ≤ 4094 ∧ ExecuteOpcode addEx = some { addEx with pc := 0x202 } ∧
      (∀ k, ({ addEx with pc := 0x202 } : Chip8).v k = addEx.v k) ∧
      ({ addEx with pc := 0x202 } : Chip8).i = addEx.i ∧
      (∀ a, ({ addEx with pc := 0x202 } : Chip8).memory a = addEx.memory a) ∧
      (∀ k, ({ addEx with pc := 0x202 } : Chip8).stack k = addEx.stack k) ∧
      ({ addEx with pc := 0x202 } : Chip8).delay_timer = addEx.delay_timer ∧
      ({ addEx with pc := 0x202 } : Chip8).sound_timer = addEx.sound_timer ∧
      (∀ k, ({ addEx with pc := 0x202 } : Chip8).keys k = addEx.keys k) :=
  ⟨addEx_WF, by decide, rfl,
    C18_execute_keeps_registers_and_memory addEx { addEx with pc := 0x202 } addEx_WF
      (by decide) rfl⟩

/-! ## Binary pixels -/

/-- C19: the zero machine has a binary screen, and from a screen whose cells are all 0
or 1, the screen after `ClearScreen`, after any completed `DrawSprite` and after any
completed `ExecuteOpcode` again has all cells 0 or 1. -/
theorem C19_binary_pixels (c : Chip8) (hbin : BinaryScreen c) :
    BinaryScreen Chip8.zero ∧ BinaryScreen (ClearScreen c) ∧
      (∀ opcode c', DrawSprite c opcode = some c' → BinaryScreen c') ∧
      (∀ c', ExecuteOpcode c = some c' → BinaryScreen c') := by
  refine ⟨fun _ _ _ _ => Or.inl rfl, BinaryScreen_ClearScreen c, ?_, ?_⟩
  · intro opcode c' h
    exact (DrawSprite_step c c' opcode h).2.1 hbin
  · intro c' h
    obtain ⟨op, _, hc⟩ := ExecuteOpcode_cases c c' h
    rcases hc with ⟨_, e⟩ | ⟨_, e⟩ | ⟨_, e⟩ | ⟨_, e⟩ | ⟨_, e⟩ | ⟨_, e⟩ | ⟨_, e⟩ | ⟨_, e⟩ | e
    · rw [e]
      exact BinaryScreen_ClearScreen _
    · rw [(ReturnFromSubroutine_some _ c' e).2]
      exact BinaryScreen_of_screen_eq c _ rfl hbin
    · rw [e]
      exact BinaryScreen_of_screen_eq c _ rfl hbin
    · rw [(CallSubroutine_some _ c' e).2]
      exact BinaryScreen_of_screen_eq c _ rfl hbin
    · rw [e]
      exact BinaryScreen_of_screen_eq c _ rfl hbin
    · rw [e]
      exact BinaryScreen_of_screen_eq c _ rfl hbin
    · rw [e]
      exact BinaryScreen_of_screen_eq c _ rfl hbin
    · exact (DrawSprite_step _ c' op e).2.1 (BinaryScreen_of_screen_eq c _ rfl hbin)
    · rw [e]
      exact BinaryScreen_of_screen_eq c _ rfl hbin

/-- C19 at the machine of `TestDrawSprite`, whose screen is blank. -/
theorem C19_binary_pixels_witness :
    BinaryScreen spriteEx ∧ BinaryScreen Chip8.zero ∧ BinaryScreen (ClearScreen spriteEx) ∧
      (∀ opcode c', DrawSprite spriteEx opcode = some c' → BinaryScreen c') ∧
      (∀ c', ExecuteOpcode spriteEx = some c' → BinaryScreen c') :=
  ⟨fun _ _ _ _ => Or.inl rfl, C19_binary_pixels spriteEx (fun _ _ _ _ => Or.inl rfl)⟩

/-! ## LoadRom -/

theorem loadLoop_spec (data : List Nat) :
    ∀ (n i : Nat) (c : Chip8), 0x200 + i + n ≤ 4096 →
    ∃ c', loadLoop data n i c = some c' ∧
      (∀ a, c'.memory a =
        if 0x200 + i ≤ a ∧ a < 0x200 + i + n then data.getD (a - 0x200) 0 else c.memory a) ∧
      c'.v = c.v ∧ c'.i = c.i ∧ c'.pc = c.pc ∧ c'.sp = c.sp ∧ c'.stack = c.stack ∧
      c'.delay_timer = c.delay_timer ∧ c'.sound_timer = c.sound_timer ∧
      c'.keys = c.keys ∧ c'.screen = c.screen := by
  intro n
  induction n with
  | zero =>
    intro i c _
    refine ⟨c, rfl, ?_, rfl, rfl, rfl, rfl, rfl, rfl, rfl, rfl, rfl⟩
    intro a
    rw [if_neg]
    omega
  | succ n ih =>
    intro i c hb
    obtain ⟨c', e, hm, hv, hi, hp, hs, ht, hd, ho, hk, hsc⟩ :=
      ih (i + 1) { c with memory := setAt c.memory (0x200 + i) (data.getD i 0) } (by omega)
    refine ⟨c', ?_, ?_, hv, hi, hp, hs, ht, hd, ho, hk, hsc⟩
    · unfold loadLoop
      rw [if_pos (by omega)]
      exact e
    · intro a
      rw [hm a]
      by_cases ha : a = 0x200 + i
      · have hsub : a - 0x200 = i := by omega
        rw [if_neg (by omega), if_pos ⟨by omega, by omega⟩, hsub]
        simp [setAt, ha]
      · by_cases hr : 0x200 + (i + 1) ≤ a ∧ a < 0x200 + (i + 1) + n
        · rw [if_pos hr, if_pos ⟨by omega, by omega⟩]
        · rw [if_neg hr, if_neg (by omega)]
          simp [setAt, ha]

/-- C16: for ROM data of at most 3584 bytes that was read successfully, `LoadRom`
completes with a `nil` error, `memory[0x200 + k] = data[k]` for every `k < len(data)`,
every other memory byte is unchanged, and so are the registers, `I`, `PC`, `SP`, the
stack, the timers, the keys and the screen. -/
theorem C16_load_rom (c : Chip8) (data : List Nat) (hlen : data.length ≤ 3584) :
    ∃ c', LoadRom c (some data) = some (c', true) ∧
      (∀ k (hk : k < data.length), c'.memory (0x200 + k) = data[k]) ∧
      (∀ a, ¬ (0x200 ≤ a ∧ a < 0x200 + data.length) → c'.memory a = c.memory a) ∧
      c'.v = c.v ∧ c'.i = c.i ∧ c'.pc = c.pc ∧ c'.sp = c.sp ∧ c'.stack = c.stack ∧
      c'.delay_timer = c.delay_timer ∧ c'.sound_timer = c.sound_timer ∧
      c'.keys = c.keys ∧ c'.screen = c.screen := by
  obtain ⟨c', e, hm, rest⟩ := loadLoop_spec data data.length 0 c (by omega)
  refine ⟨c', ?_, ?_, ?_, rest⟩
  · simp [LoadRom, e]
  · intro k hk
    rw [hm, if_pos ⟨by omega, by omega⟩]
    have hsub : 0x200 + k - 0x200 = k := by omega
    rw [hsub]
    exact List.getD_eq_getElem data 0 hk
  · intro a ha
    rw [hm, if_neg]
    omega

/-- C16 at the zero machine and the two-byte ROM `60 05`. -/
theorem C16_load_rom_witness :
    ([0x60, 0x05] : List Nat).length ≤ 3584 ∧
    ∃ c', LoadRom Chip8.zero (some [0x60, 0x05]) = some (c', true) ∧
      c'.memory 0x200 = 0x60 ∧ c'.memory 0x201 = 0x05 ∧ c'.memory 0x1FF = 0 ∧
      c'.memory 0x202 = 0 := by
  obtain ⟨c', e, hd, ho, _⟩ := C16_load_rom Chip8.zero [0x60, 0x05] (by decide)
  exact ⟨by decide, c', e, hd 0 (by decide), hd 1 (by decide), ho 0x1FF (by decide),
    ho 0x202 (by decide)⟩

/-! ## Sprite addresses -/

/-- C17, as stated, fails: with `I = 0x1000` and a one-row sprite placed inside the
screen, `DrawSprite` does not complete; it indexes `memory[4096]` instead of
`memory[4096 mod 4096]`. -/
theorem C17_counterexample :
    farEx.v (opX 0xD001) % 64 ≤ 56 ∧ farEx.v (opY 0xD001) % 32 + opN 0xD001 ≤ 32 ∧
      farEx.i < 65536 ∧ DrawSprite farEx 0xD001 = none :=
  ⟨by decide, by decide, by decide, rfl⟩

/-- C17, amended: for a sprite placed inside the screen and a 16-bit `I`, `DrawSprite`
completes when `I + N ≤ 4096`, drawing row `r` from `memory[I + r]`; when `N ≥ 1` and
`I + N > 4096` it does not complete (a memory index is out of range, nothing wraps). -/
theorem C17_draw_needs_sprite_inside_memory (c : Chip8) (opcode : Nat)
    (hx : c.v (opX opcode) % 64 ≤ 56)
    (hy : c.v (opY opcode) % 32 + opN opcode ≤ 32)
    (hi : c.i < 65536) :
    (c.i + opN opcode ≤ 4096 →
      ∃ c', DrawSprite c opcode = some c' ∧
        ∀ r k, r < opN opcode → k < 8 →
          c'.screen (c.v (opY opcode) % 32 + r) (c.v (opX opcode) % 64 + k) =
            c.screen (c.v (opY opcode) % 32 + r) (c.v (opX opcode) % 64 + k) ^^^
              spriteBit (c.memory (c.i + r)) k) ∧
    (0 < opN opcode → 4096 < c.i + opN opcode → DrawSprite c opcode = none) := by
  constructor
  · intro hI
    obtain ⟨c', e, _, s, _⟩ := DrawSprite_rect c opcode hx hy hI
    exact ⟨c', e, s⟩
  · intro hN hI
    cases hd : DrawSprite c opcode with
    | none => rfl
    | some c' =>
      exfalso
      have hr := (DrawSprite_step c c' opcode hd).2.2.2
      have hN15 : opN opcode ≤ 15 := Nat.and_le_right
      have h0 := hr 0 hN
      have h1 := hr (opN opcode - 1) (by omega)
      omega

/-- C17 amended, at the machine of `TestDrawSprite` and opcode `0xD013`. -/
theorem C17_draw_needs_sprite_inside_memory_witness :
    spriteEx.v (opX 0xD013) % 64 ≤ 56 ∧
    spriteEx.v (opY 0xD013) % 32 + opN 0xD013 ≤ 32 ∧
    spriteEx.i < 65536 ∧ spriteEx.i + opN 0xD013 ≤ 4096 ∧
    ∃ c', DrawSprite spriteEx 0xD013 = some c' ∧
      ∀ r k, r < opN 0xD013 → k < 8 →
        c'.screen (spriteEx.v (opY 0xD013) % 32 + r) (spriteEx.v (opX 0xD013) % 64 + k) =
          spriteEx.screen (spriteEx.v (opY 0xD013) % 32 + r)
              (spriteEx.v (opX 0xD013) % 64 + k) ^^^
            spriteBit (spriteEx.memory (spriteEx.i + r)) k :=
  ⟨by decide, by decide, by decide, by decide,
    (C17_draw_needs_sprite_inside_memory spriteEx 0xD013 (by decide) (by decide)
      (by decide)).1 (by decide)⟩

/-! ## `VF` as a coordinate register -/

/-- C20: an in-bounds `DrawSprite` completes; when the X field is `0xF` the sprite is drawn
at the column `VF % 64` of the value `VF` held before the instruction, when the Y field is
`0xF` at the row `VF % 32` of that value (pixels outside that rectangle are unchanged);
afterwards `VF` is the collision flag, 0 or 1. -/
theorem C20_draw_reads_VF_before_clearing (c : Chip8) (opcode : Nat)
    (hx : c.v (opX opcode) % 64 ≤ 56)
    (hy : c.v (opY opcode) % 32 + opN opcode ≤ 32)
    (hI : c.i + opN opcode ≤ 4096) :
    ∃ c', DrawSprite c opcode = some c' ∧
      (opX opcode = 0xF →
        (∀ r k, r < opN opcode → k < 8 →
          c'.screen (c.v (opY opcode) % 32 + r) (c.v 0xF % 64 + k) =
            c.screen (c.v (opY opcode) % 32 + r) (c.v 0xF % 64 + k) ^^^
              spriteBit (c.memory (c.i + r)) k) ∧
        (∀ r k, ¬ (c.v (opY opcode) % 32 ≤ r ∧ r < c.v (opY opcode) % 32 + opN opcode ∧
            c.v 0xF % 64 ≤ k ∧ k < c.v 0xF % 64 + 8) →
          c'.screen r k = c.screen r k)) ∧
      (opY opcode = 0xF →
        (∀ r k, r < opN opcode → k < 8 →
          c'.screen (c.v 0xF % 32 + r) (c.v (opX opcode) % 64 + k) =
            c.screen (c.v 0xF % 32 + r) (c.v (opX opcode) % 64 + k) ^^^
              spriteBit (c.memory (c.i + r)) k) ∧
        (∀ r k, ¬ (c.v 0xF % 32 ≤ r ∧ r < c.v 0xF % 32 + opN opcode ∧
            c.v (opX opcode) % 64 ≤ k ∧ k < c.v (opX opcode) % 64 + 8) →
          c'.screen r k = c.screen r k)) ∧
      (c'.v 0xF = 1 ↔ ∃ r k, r < opN opcode ∧ k < 8 ∧
        spriteBit (c.memory (c.i + r)) k = 1 ∧
        c.screen (c.v (opY opcode) % 32 + r) (c.v (opX opcode) % 64 + k) = 1) ∧
      (c'.v 0xF = 0 ∨ c'.v 0xF = 1) := by
  obtain ⟨c', e, _, s, o, v, w⟩ := DrawSprite_rect c opcode hx hy hI
  refine ⟨c', e, ?_, ?_, v, w⟩
  · intro hX
    rw [hX] at s o
    exact ⟨s, o⟩
  · intro hY
    rw [hY] at s o
    exact ⟨s, o⟩

/-- C20 at the machine with `VF = 10` and opcode `0xDFF1` (X = Y = `0xF`): the sprite
row `F0` lands at row 10, columns 10 to 13, nothing is drawn at column 0 or row 0, and
`VF` ends as 0. -/
theorem C20_draw_reads_VF_before_clearing_witness :
    vfEx.v (opX 0xDFF1) % 64 ≤ 56 ∧ vfEx.v (opY 0xDFF1) % 32 + opN 0xDFF1 ≤ 32 ∧
    vfEx.i + opN 0xDFF1 ≤ 4096 ∧ opX 0xDFF1 = 0xF ∧ opY 0xDFF1 = 0xF ∧
    ∃ c', DrawSprite vfEx 0xDFF1 = some c' ∧
      c'.screen 10 10 = 1 ∧ c'.screen 10 13 = 1 ∧ c'.screen 10 14 = 0 ∧
      c'.screen 0 0 = 0 ∧ c'.screen 10 0 = 0 ∧ c'.screen 0 10 = 0 ∧
      (c'.v 0xF = 0 ∨ c'.v 0xF = 1) := by
  obtain ⟨c', e, hX, _, _, w⟩ :=
    C20_draw_reads_VF_before_clearing vfEx 0xDFF1 (by decide) (by decide) (by decide)
  obtain ⟨s, o⟩ := hX (by decide)
  exact ⟨by decide, by decide, by decide, by decide, by decide, c', e,
    s 0 0 (by decide) (by decide), s 0 3 (by decide) (by decide),
    s 0 4 (by decide) (by decide), o 0 0 (by decide), o 10 0 (by decide),
    o 0 10 (by decide), w⟩


end Chip8Emu
